import Mathlib

/-!
Shallow embedding of `src/utils/file_io.py` (DoppleTerminal2).

File contents are modelled explicitly: text files as `String`s (present or
absent), JSON files as parsed values (or a marker for unparsable content).
Python exceptions are modelled with `Except PyErr`.  The `utils.states`
module (`GameState`, `PlayerState`) is not part of the sources; the record
fields that `file_io.py` touches are modelled from the spec.
-/

/-- Python exception kinds raised or caught by the code under study. -/
inductive PyErr where
  | fileNotFound
  | ioError
  | valueError
  | typeError
  | attributeError
  deriving DecidableEq, Repr

/-- JSON values as produced by `json.load` (numbers restricted to integers,
which suffices for every file this program reads or writes). -/
inductive Json where
  | null
  | bool (b : Bool)
  | num (n : Int)
  | str (s : String)
  | arr (l : List Json)
  | obj (l : List (String × Json))

instance {ε α : Type} [DecidableEq ε] [DecidableEq α] : DecidableEq (Except ε α) :=
  fun a b =>
    match a, b with
    | .error e1, .error e2 =>
      if h : e1 = e2 then .isTrue (by rw [h])
      else .isFalse (fun c => h (Except.error.inj c))
    | .ok a1, .ok a2 =>
      if h : a1 = a2 then .isTrue (by rw [h])
      else .isFalse (fun c => h (Except.ok.inj c))
    | .error _, .ok _ => .isFalse (fun c => Except.noConfusion c)
    | .ok _, .error _ => .isFalse (fun c => Except.noConfusion c)

/-! ### Python string primitives -/

/-- Whitespace test used by `str.strip` (ASCII whitespace). -/
def pyWS (c : Char) : Bool := c.isWhitespace

/-- `str.strip()` on the character list: drop whitespace from both ends. -/
def stripChars (cs : List Char) : List Char :=
  ((cs.dropWhile pyWS).reverse.dropWhile pyWS).reverse

/-- `s.strip()`. -/
def pyStrip (s : String) : String := ⟨stripChars s.data⟩

/-- `s.upper()` (ASCII uppercasing). -/
def pyUpper (s : String) : String := ⟨s.data.map Char.toUpper⟩

/-- Value of a decimal digit character. -/
def dval (c : Char) : Nat := c.toNat - 48

/-- The character for a decimal digit. -/
def digitChar (d : Nat) : Char := Char.ofNat (48 + d)

/-- Fuel-driven loop producing the decimal digits of `n` in front of `acc`. -/
def natCharsAux : Nat → Nat → List Char → List Char
  | 0, _, acc => acc
  | fuel + 1, n, acc =>
    if n < 10 then digitChar n :: acc
    else natCharsAux fuel (n / 10) (digitChar (n % 10) :: acc)

/-- Decimal digit characters of `n`, most significant first (`str(n)` for a
non-negative Python int). -/
def natChars (n : Nat) : List Char := natCharsAux (n + 1) n []

/-- `str(n)` for a natural number. -/
def pyStrNat (n : Nat) : String := ⟨natChars n⟩

/-- Accumulating decimal read of a digit-character list. -/
def parseNat (cs : List Char) : Nat :=
  cs.foldl (fun a c => a * 10 + dval c) 0

/-- Digit run of `int(...)` after the first digit: digits with single
underscores allowed between digits (Python 3 int-literal grammar). -/
def goDigits (acc : Nat) : List Char → Option Nat
  | [] => some acc
  | c :: cs =>
    if c = '_' then
      match cs with
      | c2 :: cs2 => if c2.isDigit then goDigits (acc * 10 + dval c2) cs2 else none
      | [] => none
    else if c.isDigit then goDigits (acc * 10 + dval c) cs else none

/-- A non-empty digit run starting a Python int literal. -/
def startDigits : List Char → Option Nat
  | [] => none
  | c :: cs => if c.isDigit then goDigits (dval c) cs else none

/-- `int(s)` on a string: optional surrounding whitespace, optional sign,
then a digit run; `none` models the `ValueError` Python raises. -/
def pyInt? (s : String) : Option Int :=
  match stripChars s.data with
  | [] => none
  | c :: cs =>
    if c = '-' then (startDigits cs).map (fun n => -(Int.ofNat n))
    else if c = '+' then (startDigits cs).map Int.ofNat
    else (startDigits (c :: cs)).map Int.ofNat

/-! ### SequentialAssigner -/

namespace SequentialAssigner

/-- Observable state of the index file as `_read_index` sees it: the file may
be missing, opening/reading it may raise `IOError`, or it holds text. -/
inductive IndexFile where
  | absent
  | readError
  | content (s : String)
  deriving DecidableEq, Repr

/-- State of the JSON list file as `_load_items` sees it: missing, not valid
JSON (or unreadable), or holding a parsed JSON value. -/
inductive ListFile where
  | absent
  | notJson
  | holds (j : Json)

/-- Python `key in data` for the membership test in `_load_items`
(`self.key not in data`): key lookup on dicts, element equality on lists,
substring test on strings, `TypeError` otherwise. -/
def pyContains (j : Json) (key : String) : Except PyErr Bool :=
  match j with
  | .obj kvs => .ok (kvs.any (fun kv => kv.1 = key))
  | .arr l => .ok (l.any (fun x => match x with | .str s => s = key | _ => false))
  | .str s => .ok (decide (key.data <:+: s.data))
  | _ => .error .typeError

/-- Python `data[self.key]` with a string key: dict lookup (`KeyError`
impossible after a positive membership test), `TypeError` on every other
JSON value. -/
def pyIndexStr (j : Json) (key : String) : Except PyErr Json :=
  match j with
  | .obj kvs =>
    match kvs.find? (fun kv => kv.1 = key) with
    | some kv => .ok kv.2
    | none => .error .typeError
  | _ => .error .typeError

/-- `[item.strip().upper() for item in l if item.strip()]`: the first
non-string element raises `AttributeError` (no `.strip` attribute). -/
def stripUpperItems : List Json → Except PyErr (List String)
  | [] => .ok []
  | .str s :: rest =>
    (stripUpperItems rest).map (fun r =>
      if pyStrip s = "" then r else pyUpper (pyStrip s) :: r)
  | _ :: _ => .error .attributeError

/-- `SequentialAssigner._load_items`, as a function of the list file's state
and the configured key. -/
def load_items (file : ListFile) (key : String) : Except PyErr (List String) :=
  match file with
  | .absent => .error .fileNotFound
  | .notJson => .error .ioError
  | .holds data =>
    match pyContains data key with
    | .error e => .error e
    | .ok isIn =>
      if ¬ isIn then .error .valueError
      else
        match pyIndexStr data key with
        | .error e => .error e
        | .ok (.arr l) =>
          match stripUpperItems l with
          | .error e => .error e
          | .ok items => if items = [] then .error .valueError else .ok items
        | .ok _ => .error .valueError

/-- `SequentialAssigner._read_index` for an items list of length `n`: every
failure (missing file, `IOError`, unparsable int, out-of-range int) falls
back to `0`. -/
def read_index (n : Nat) (file : IndexFile) : Nat :=
  match file with
  | .absent => 0
  | .readError => 0
  | .content s =>
    match pyInt? (pyStrip s) with
    | none => 0
    | some i => if 0 ≤ i ∧ i < (n : Int) then i.toNat else 0

/-- Result of one `assign()` call: the returned item, the new index-file
content written by `_write_index`, and whether the invalid-item fallback
branch was taken. -/
structure AssignOut where
  sel : String
  newFile : IndexFile
  usedFallback : Bool
  deriving DecidableEq, Repr

/-- The guard `not selected_item or selected_item not in self.items` of the
fallback branch in `assign()`. -/
def fallbackGuard (items : List String) (sel0 : String) : Bool :=
  decide (sel0 = "" ∨ ¬ sel0 ∈ items)

/-- `SequentialAssigner.assign`; `none` models the `IndexError` that an
empty items list would cause (never reachable after construction). -/
def assign (items : List String) (file : IndexFile) : Option AssignOut :=
  match items.get? (read_index items.length file) with
  | none => none
  | some sel0 =>
    some ⟨if fallbackGuard items sel0 then items.headD sel0 else sel0,
      .content (pyStrNat ((read_index items.length file + 1) % items.length)),
      fallbackGuard items sel0⟩

/-- Index-file state after `k` consecutive `assign()` calls. -/
def assignIter (items : List String) (file : IndexFile) : Nat → Option IndexFile
  | 0 => some file
  | k + 1 => (assignIter items file k).bind fun f => (assign items f).map (·.newFile)

/-- Item returned by the `(k+1)`-th of a run of consecutive `assign()`
calls. -/
def assignResult (items : List String) (file : IndexFile) (k : Nat) : Option String :=
  (assignIter items file k).bind fun f => (assign items f).map (·.sel)

end SequentialAssigner

/-! ### Python datetime: strftime / strptime for "%Y-%m-%d %H:%M:%S" -/

/-- A naive-or-aware `datetime` value; `tz` models `tzinfo` (minutes offset,
`none` for a naive datetime). -/
structure PyDateTime where
  year : Nat
  month : Nat
  day : Nat
  hour : Nat
  minute : Nat
  second : Nat
  microsecond : Nat
  tz : Option Int
  deriving DecidableEq, Repr

/-- Gregorian leap-year rule used by `datetime`. -/
def isLeap (y : Nat) : Bool := (y % 4 = 0 && y % 100 ≠ 0) || y % 400 = 0

/-- Days in a month, as validated by the `datetime` constructor. -/
def daysInMonth (y m : Nat) : Nat :=
  if m = 2 then (if isLeap y then 29 else 28)
  else if m = 4 ∨ m = 6 ∨ m = 9 ∨ m = 11 then 30
  else 31

/-- Field ranges accepted by the `datetime` constructor. -/
def validDT (t : PyDateTime) : Bool :=
  1 ≤ t.year && t.year ≤ 9999 && 1 ≤ t.month && t.month ≤ 12 &&
  1 ≤ t.day && t.day ≤ daysInMonth t.year t.month &&
  t.hour ≤ 23 && t.minute ≤ 59 && t.second ≤ 59 && t.microsecond ≤ 999999

/-- Zero-padded decimal rendering of width `w` (`%Y` with `w = 4`,
`%m`/`%d`/`%H`/`%M`/`%S` with `w = 2`). -/
def padChars (w n : Nat) : List Char :=
  List.replicate (w - (natChars n).length) '0' ++ natChars n

/-- `t.strftime("%Y-%m-%d %H:%M:%S")`. -/
def strftimeYmdHMS (t : PyDateTime) : String :=
  ⟨padChars 4 t.year ++ '-' :: padChars 2 t.month ++ '-' :: padChars 2 t.day ++
    ' ' :: padChars 2 t.hour ++ ':' :: padChars 2 t.minute ++ ':' :: padChars 2 t.second⟩

/-- One numeric field of `strptime`: greedily up to `maxW` leading digits,
at least one. -/
def parseField (maxW : Nat) (cs : List Char) : Option (Nat × List Char) :=
  if (cs.takeWhile Char.isDigit).take maxW = [] then none
  else some (parseNat ((cs.takeWhile Char.isDigit).take maxW),
    cs.drop ((cs.takeWhile Char.isDigit).take maxW).length)

/-- A literal character of the `strptime` format. -/
def expectChar (c : Char) : List Char → Option (List Char)
  | [] => none
  | d :: cs => if d = c then some cs else none

/-- `datetime.strptime(s, "%Y-%m-%d %H:%M:%S")`: `none` models the
`ValueError` raised on a mismatch, trailing input, or out-of-range fields
(the regex match, then the `datetime` constructor's validation). -/
def strptimeYmdHMS (s : String) : Option PyDateTime :=
  match parseField 4 s.data with
  | none => none
  | some (y, r1) =>
    match expectChar '-' r1 with
    | none => none
    | some r2 =>
      match parseField 2 r2 with
      | none => none
      | some (mo, r3) =>
        match expectChar '-' r3 with
        | none => none
        | some r4 =>
          match parseField 2 r4 with
          | none => none
          | some (d, r5) =>
            match expectChar ' ' r5 with
            | none => none
            | some r6 =>
              match parseField 2 r6 with
              | none => none
              | some (h, r7) =>
                match expectChar ':' r7 with
                | none => none
                | some r8 =>
                  match parseField 2 r8 with
                  | none => none
                  | some (mi, r9) =>
                    match expectChar ':' r9 with
                    | none => none
                    | some r10 =>
                      match parseField 2 r10 with
                      | none => none
                      | some (sec, r11) =>
                        if r11 = [] then
                          if validDT ⟨y, mo, d, h, mi, sec, 0, none⟩ then
                            some ⟨y, mo, d, h, mi, sec, 0, none⟩
                          else none
                        else none

/-- Truncation to whole seconds (what the text format preserves), yielding a
naive datetime. -/
def truncToSecond (t : PyDateTime) : PyDateTime :=
  { t with microsecond := 0, tz := none }

/-! ### Player roster (lobby file) -/

/-- Modelled from the spec: `utils.states.PlayerState` is not among the
sources; the spec calls it a trivial record.  Only the fields `file_io.py`
touches are modelled (`code_name`, `lobby_id`, `timekeeper`, `starttime`). -/
structure PlayerState where
  code_name : String
  lobby_id : Nat
  timekeeper : Bool
  starttime : Option PyDateTime
  deriving DecidableEq, Repr

/-- Modelled from the spec: `utils.states.GameState` is not among the
sources; only the fields `file_io.py` touches are modelled. -/
structure GameState where
  start_time_path : String
  player_path : String
  players : List PlayerState
  deriving DecidableEq, Repr

/-- The JSON dict stored for one player in `players.json`. -/
structure PlayerRec where
  code_name : String
  lobby_id : Nat
  timekeeper : Bool
  starttime : Option PyDateTime
  deriving DecidableEq, Repr

/-- `dataclasses.asdict(ps)`. -/
def asdict (ps : PlayerState) : PlayerRec :=
  ⟨ps.code_name, ps.lobby_id, ps.timekeeper, ps.starttime⟩

/-- `PlayerState(**p)` for a well-formed record `p`. -/
def playerOfRec (r : PlayerRec) : PlayerState :=
  ⟨r.code_name, r.lobby_id, r.timekeeper, r.starttime⟩

/-- State of `players.json` as this code sees it: missing, existing but not
valid JSON, or holding a JSON list of player records. -/
inductive PlayersFile where
  | absent
  | invalid
  | stored (l : List PlayerRec)
  deriving DecidableEq, Repr

/-- `load_players_from_lobby`, as a function of the lobby file's state
(`json.JSONDecodeError` is a `ValueError`). -/
def load_players_from_lobby (file : PlayersFile) : Except PyErr (List PlayerState) :=
  match file with
  | .absent => .ok []
  | .invalid => .error .valueError
  | .stored l => .ok (l.map playerOfRec)

/-- Whether `load_players_from_lobby` opens and reads the file: it does so
exactly when the `os.path.exists` guard passes. -/
def lobby_read_performed (file : PlayersFile) : Bool :=
  match file with
  | .absent => false
  | .invalid => true
  | .stored _ => true

/-- `save_player_to_lobby_file`, as a transformer of the lobby file's state:
load existing players (corrupt JSON starts fresh), append `asdict ps` unless
some record already carries this `code_name`, write the list back. -/
def save_player_to_lobby_file (ps : PlayerState) (file : PlayersFile) : PlayersFile :=
  let players : List PlayerRec :=
    match file with
    | .absent => []
    | .invalid => []
    | .stored l => l
  let players :=
    if players.any (fun p => p.code_name = ps.code_name) then players
    else players ++ [asdict ps]
  .stored players

/-! ### synchronize_start_time -/

/-- The observable outcome of `synchronize_start_time`: the start-time
file's content, the updated game state and the updated player state. -/
structure SyncResult where
  startFile : Option String
  gs : GameState
  ps : PlayerState
  deriving DecidableEq, Repr

/-- `synchronize_start_time`, as a function of the start-time file content,
the lobby file, the value of `datetime.now()`, and the two states.  In the
timekeeper branch `init_game_file` creates the file and the formatted time
immediately overwrites it; in the other branch the `while` guard is false on
entry (the file exists), so the body reduces to the read (the loop itself is
modelled by `sync_wait_iters` below). -/
def synchronize_start_time (startFile : Option String) (playersFile : PlayersFile)
    (now : PyDateTime) (gs : GameState) (ps : PlayerState) : Except PyErr SyncResult :=
  match startFile with
  | none =>
    match load_players_from_lobby playersFile with
    | .error e => .error e
    | .ok players =>
      .ok ⟨some (strftimeYmdHMS { now with tz := none }),
            { gs with players := players },
            { ps with timekeeper := true, starttime := some { now with tz := none } }⟩
  | some s =>
    match strptimeYmdHMS (pyStrip s) with
    | none => .error .valueError
    | some t => .ok ⟨some s, gs, { ps with starttime := some { t with tz := none } }⟩

/-- The polling loop `while not os.path.exists(...): sleep(1)`, run against
the trace `obs` of successive existence checks: it exits after `k` sleeps
exactly when the `(k+1)`-th check is the first to see the file. -/
def loopExitsAfter (obs : Nat → Bool) (k : Nat) : Prop :=
  obs k = true ∧ ∀ j, j < k → obs j = false

/-- Existence checks observe one unchanging filesystem: nothing in this
program ever removes the start-time file during a call. -/
def stableObs (startFile : Option String) (obs : Nat → Bool) : Prop :=
  ∀ n, obs n = startFile.isSome

/-- The run of `synchronize_start_time` on `startFile` performs `k`
`sleep(1)` iterations: the timekeeper branch has no loop, the other branch
enters the polling loop. -/
def sync_wait_iters (startFile : Option String) (obs : Nat → Bool) (k : Nat) : Prop :=
  match startFile with
  | none => k = 0
  | some _ => loopExitsAfter obs k

/-- The claim that some execution with a stable filesystem performs at
least one wait iteration before the read. -/
def existsWaitIteration : Prop :=
  ∃ startFile obs k, stableObs startFile obs ∧ sync_wait_iters startFile obs k ∧ 1 ≤ k

/-! ### read_new_messages -/

/-- Split a character list at newline characters (the line structure that
`f.readlines()` exposes; terminators are irrelevant after stripping). -/
def splitNl : List Char → List (List Char)
  | [] => [[]]
  | c :: cs =>
    if c = '\n' then [] :: splitNl cs
    else
      match splitNl cs with
      | [] => [[c]]
      | l :: ls => (c :: l) :: ls

/-- `[line.strip() for line in lines if line.strip()]` over the file's
lines: the non-blank stripped lines, in order. -/
def full_chat_of (content : String) : List String :=
  ((splitNl content.data).map (fun l => pyStrip ⟨l⟩)).filter (fun l => l ≠ "")

/-- Python list slicing `l[k:]` for an `int` index `k`. -/
def pySliceFrom (l : List String) (k : Int) : List String :=
  if k < 0 then l.drop ((l.length : Int) + k).toNat else l.drop k.toNat

/-- `read_new_messages`, as a function of the file content and the caller's
`last_line` counter. -/
def read_new_messages (content : String) (last_line : Int) :
    List String × List String × Int :=
  let full := full_chat_of content
  let newMsgs := pySliceFrom full last_line
  (full, newMsgs, last_line + newMsgs.length)

/-! ### Decimal digit lemmas -/

lemma dval_digitChar {d : Nat} (h : d < 10) : dval (digitChar d) = d := by
  interval_cases d <;> decide

lemma isDigit_digitChar {d : Nat} (h : d < 10) : (digitChar d).isDigit = true := by
  interval_cases d <;> decide

lemma not_ws_digitChar {d : Nat} (h : d < 10) : pyWS (digitChar d) = false := by
  interval_cases d <;> decide

lemma natCharsAux_eq (fuel : Nat) : ∀ (n : Nat) (acc : List Char), n < fuel →
    natCharsAux fuel n acc =
      (if n = 0 then ['0'] else ((Nat.digits 10 n).map digitChar).reverse) ++ acc := by
  induction fuel with
  | zero => intro n acc h; omega
  | succ f ih =>
    intro n acc h
    unfold natCharsAux
    by_cases h10 : n < 10
    · rw [if_pos h10]
      by_cases h0 : n = 0
      · subst h0
        simp
        decide
      · rw [if_neg h0]
        rw [Nat.digits_def' (by norm_num : 1 < 10) (by omega)]
        rw [Nat.mod_eq_of_lt h10, Nat.div_eq_of_lt h10]
        simp
    · rw [if_neg h10]
      rw [ih (n / 10) _ (by omega)]
      rw [if_neg (by omega : ¬ n / 10 = 0)]
      conv_rhs => rw [if_neg (by omega : ¬ n = 0),
        Nat.digits_def' (by norm_num : 1 < 10) (by omega : 0 < n)]
      simp [List.append_assoc]

lemma natChars_eq_digits (n : Nat) :
    natChars n = if n = 0 then ['0'] else ((Nat.digits 10 n).map digitChar).reverse := by
  unfold natChars
  rw [natCharsAux_eq (n + 1) n [] (by omega)]
  simp

lemma natChars_ne_nil (n : Nat) : natChars n ≠ [] := by
  rw [natChars_eq_digits]
  split
  · simp
  · next h =>
    simp only [ne_eq, List.reverse_eq_nil_iff, List.map_eq_nil_iff]
    exact Nat.digits_ne_nil_iff_ne_zero.mpr h

lemma natChars_mem_digit {n : Nat} {c : Char} (h : c ∈ natChars n) : c.isDigit = true := by
  rw [natChars_eq_digits] at h
  split at h
  · rw [List.mem_singleton] at h
    subst h; decide
  · rw [List.mem_reverse, List.mem_map] at h
    obtain ⟨d, hd, rfl⟩ := h
    exact isDigit_digitChar (Nat.digits_lt_base (by norm_num) hd)

lemma natChars_mem_not_ws {n : Nat} {c : Char} (h : c ∈ natChars n) : pyWS c = false := by
  rw [natChars_eq_digits] at h
  split at h
  · rw [List.mem_singleton] at h
    subst h; decide
  · rw [List.mem_reverse, List.mem_map] at h
    obtain ⟨d, hd, rfl⟩ := h
    exact not_ws_digitChar (Nat.digits_lt_base (by norm_num) hd)

lemma foldl_digits_reverse (L : List Nat) (a : Nat) :
    List.foldl (fun x d => x * 10 + d) a L.reverse = a * 10 ^ L.length + Nat.ofDigits 10 L := by
  induction L generalizing a with
  | nil => simp [Nat.ofDigits_nil]
  | cons d T ih =>
    simp only [List.reverse_cons, List.foldl_append, List.foldl_cons, List.foldl_nil,
      ih, Nat.ofDigits_cons, List.length_cons, pow_succ]
    ring

lemma foldl_map_digitChar (L : List Nat) (h : ∀ d ∈ L, d < 10) (a : Nat) :
    List.foldl (fun x c => x * 10 + dval c) a (L.map digitChar) =
      List.foldl (fun x d => x * 10 + d) a L := by
  induction L generalizing a with
  | nil => rfl
  | cons d T ih =>
    simp only [List.map_cons, List.foldl_cons]
    rw [dval_digitChar (h d (by simp))]
    exact ih (fun x hx => h x (by simp [hx])) _

lemma parseNat_natChars (n : Nat) : parseNat (natChars n) = n := by
  rw [natChars_eq_digits]
  unfold parseNat
  split
  · next h => subst h; decide
  · rw [← List.map_reverse, foldl_map_digitChar]
    · rw [foldl_digits_reverse, Nat.ofDigits_digits]
      simp
    · intro d hd
      rw [List.mem_reverse] at hd
      exact Nat.digits_lt_base (by norm_num) hd

lemma parseNat_zeros_append (k : Nat) (cs : List Char) :
    parseNat (List.replicate k '0' ++ cs) = parseNat cs := by
  induction k with
  | zero => rfl
  | succ m ih =>
    simpa [parseNat, List.replicate_succ] using ih

lemma parseNat_padChars (w n : Nat) : parseNat (padChars w n) = n := by
  unfold padChars
  rw [parseNat_zeros_append, parseNat_natChars]

lemma padChars_mem_digit {w n : Nat} {c : Char} (h : c ∈ padChars w n) :
    c.isDigit = true := by
  unfold padChars at h
  rcases List.mem_append.mp h with h | h
  · rw [List.eq_of_mem_replicate h]; decide
  · exact natChars_mem_digit h

lemma padChars_mem_not_ws {w n : Nat} {c : Char} (h : c ∈ padChars w n) :
    pyWS c = false := by
  unfold padChars at h
  rcases List.mem_append.mp h with h | h
  · rw [List.eq_of_mem_replicate h]; decide
  · exact natChars_mem_not_ws h

lemma padChars_ne_nil (w n : Nat) : padChars w n ≠ [] := by
  unfold padChars
  intro h
  exact natChars_ne_nil n (List.append_eq_nil.mp h).2

lemma natChars_length_le {n w : Nat} (hw : 1 ≤ w) (h : n < 10 ^ w) :
    (natChars n).length ≤ w := by
  rw [natChars_eq_digits]
  split
  · simpa using hw
  · next hn =>
    rw [List.length_reverse, List.length_map]
    by_contra hlen
    push_neg at hlen
    have h1 : 10 ^ (Nat.digits 10 n).length ≤ 10 * n :=
      Nat.base_pow_length_digits_le 10 n (by norm_num) hn
    have h3 : 10 ^ (w + 1) ≤ 10 ^ (Nat.digits 10 n).length :=
      Nat.pow_le_pow_right (by norm_num) hlen
    have h4 : 10 ^ (w + 1) = 10 * 10 ^ w := by rw [pow_succ]; ring
    omega

lemma padChars_length {w n : Nat} (hw : 1 ≤ w) (h : n < 10 ^ w) :
    (padChars w n).length = w := by
  have := natChars_length_le hw h
  unfold padChars
  rw [List.length_append, List.length_replicate]
  omega

/-! ### strip / int round trips -/

lemma dropWhile_eq_self_of_head (p : Char → Bool) (cs : List Char)
    (h : ∀ c, cs.head? = some c → p c = false) : cs.dropWhile p = cs := by
  cases cs with
  | nil => rfl
  | cons c t => simp [List.dropWhile_cons, h c rfl]

lemma stripChars_eq_self {cs : List Char}
    (h1 : ∀ c, cs.head? = some c → pyWS c = false)
    (h2 : ∀ c, cs.getLast? = some c → pyWS c = false) : stripChars cs = cs := by
  unfold stripChars
  rw [dropWhile_eq_self_of_head _ _ h1]
  rw [dropWhile_eq_self_of_head _ _
    (fun c hc => h2 c (by rwa [List.getLast?_eq_head?_reverse]))]
  exact List.reverse_reverse cs

lemma stripChars_natChars (m : Nat) : stripChars (natChars m) = natChars m := by
  apply stripChars_eq_self
  · intro c hc
    exact natChars_mem_not_ws (List.mem_of_mem_head? (Option.mem_def.mpr hc))
  · intro c hc
    rw [List.getLast?_eq_head?_reverse] at hc
    have hm : c ∈ (natChars m).reverse :=
      List.mem_of_mem_head? (Option.mem_def.mpr hc)
    exact natChars_mem_not_ws (List.mem_reverse.mp hm)

lemma pyStrip_pyStrNat (m : Nat) : pyStrip (pyStrNat m) = pyStrNat m := by
  unfold pyStrip pyStrNat
  exact congrArg String.mk (stripChars_natChars m)

lemma goDigits_all (cs : List Char) (h : ∀ c ∈ cs, c.isDigit = true) (acc : Nat) :
    goDigits acc cs = some (List.foldl (fun a c => a * 10 + dval c) acc cs) := by
  induction cs generalizing acc with
  | nil => rfl
  | cons c t ih =>
    have hc : c.isDigit = true := h c (by simp)
    have hcu : ¬ c = '_' := by
      intro e; rw [e] at hc; exact absurd hc (by decide)
    unfold goDigits
    rw [if_neg hcu, if_pos hc, List.foldl_cons]
    exact ih (fun x hx => h x (by simp [hx])) _

lemma startDigits_all (c : Char) (t : List Char) (h : ∀ x ∈ c :: t, x.isDigit = true) :
    startDigits (c :: t) = some (parseNat (c :: t)) := by
  show (if c.isDigit then goDigits (dval c) t else none) = some (parseNat (c :: t))
  rw [if_pos (h c (by simp))]
  rw [goDigits_all t (fun x hx => h x (by simp [hx]))]
  unfold parseNat
  rw [List.foldl_cons]
  norm_num

lemma pyInt_pyStrNat (m : Nat) : pyInt? (pyStrNat m) = some (m : Int) := by
  unfold pyInt? pyStrNat
  show (match stripChars (natChars m) with
    | [] => none
    | c :: cs =>
      if c = '-' then (startDigits cs).map (fun n => -(Int.ofNat n))
      else if c = '+' then (startDigits cs).map Int.ofNat
      else (startDigits (c :: cs)).map Int.ofNat) = some (m : Int)
  rw [stripChars_natChars]
  cases hcs : natChars m with
  | nil => exact absurd hcs (natChars_ne_nil m)
  | cons c t =>
    have hd : ∀ x ∈ c :: t, x.isDigit = true := by
      intro x hx
      exact natChars_mem_digit (hcs ▸ hx)
    have hc : c.isDigit = true := hd c (by simp)
    have hm : ¬ c = '-' := by intro e; rw [e] at hc; exact absurd hc (by decide)
    have hp : ¬ c = '+' := by intro e; rw [e] at hc; exact absurd hc (by decide)
    show (if c = '-' then (startDigits t).map (fun n => -(Int.ofNat n))
      else if c = '+' then (startDigits t).map Int.ofNat
      else (startDigits (c :: t)).map Int.ofNat) = some (m : Int)
    rw [if_neg hm, if_neg hp, startDigits_all c t hd, Option.map_some',
      ← hcs, parseNat_natChars]
    rfl

/-! ### read_index / assign lemmas -/

namespace SequentialAssigner

lemma read_index_of_parse {n i : Nat} {s : String}
    (hp : pyInt? (pyStrip s) = some (i : Int)) (h : i < n) :
    read_index n (.content s) = i := by
  simp only [read_index, hp]
  rw [if_pos ⟨by omega, by omega⟩]
  omega

lemma read_index_pyStrNat {n m : Nat} (h : m < n) :
    read_index n (.content (pyStrNat m)) = m :=
  read_index_of_parse (by rw [pyStrip_pyStrNat]; exact pyInt_pyStrNat m) h

lemma read_index_lt {n : Nat} (hn : 0 < n) (file : IndexFile) :
    read_index n file < n := by
  cases file with
  | absent => exact hn
  | readError => exact hn
  | content s =>
    simp only [read_index]
    cases pyInt? (pyStrip s) with
    | none => exact hn
    | some j =>
      simp only
      by_cases hj : 0 ≤ j ∧ j < (n : Int)
      · rw [if_pos hj]; omega
      · rw [if_neg hj]; exact hn

lemma fallbackGuard_false {items : List String} {sel0 : String}
    (h1 : sel0 ≠ "") (h2 : sel0 ∈ items) : fallbackGuard items sel0 = false := by
  simp only [fallbackGuard, decide_eq_false_iff_not]
  push_neg
  exact ⟨h1, h2⟩

lemma assign_spec (items : List String) (hne : ∀ it ∈ items, it ≠ "")
    (file : IndexFile) (h : read_index items.length file < items.length) :
    assign items file = some ⟨items.get ⟨read_index items.length file, h⟩,
      .content (pyStrNat ((read_index items.length file + 1) % items.length)), false⟩ := by
  have hmem : items[read_index items.length file] ∈ items := List.getElem_mem h
  have hfb := fallbackGuard_false (hne _ hmem) hmem
  simp [assign, List.getElem?_eq_getElem h, hfb]

lemma assign_spec_at (items : List String) (hne : ∀ it ∈ items, it ≠ "")
    (file : IndexFile) {j : Nat} (hj : j < items.length)
    (hr : read_index items.length file = j) :
    assign items file = some ⟨items.get ⟨j, hj⟩,
      .content (pyStrNat ((j + 1) % items.length)), false⟩ := by
  subst hr
  exact assign_spec items hne file hj

lemma assign_some_newFile {items : List String} {file : IndexFile} {o : AssignOut}
    (h : assign items file = some o) :
    o.newFile = .content (pyStrNat ((read_index items.length file + 1) % items.length)) := by
  unfold assign at h
  cases hg : items.get? (read_index items.length file) with
  | none => rw [hg] at h; cases h
  | some sel0 =>
    rw [hg] at h
    simp only [Option.some.injEq] at h
    rw [← h]

lemma assignIter_succ_left (items : List String) (file : IndexFile) (k : Nat) :
    assignIter items file (k + 1) =
      (assign items file).bind fun o => assignIter items o.newFile k := by
  induction k with
  | zero =>
    show (some file).bind (fun f => (assign items f).map (·.newFile)) = _
    rw [Option.some_bind]
    cases assign items file <;> rfl
  | succ m ih =>
    show (assignIter items file (m + 1)).bind (fun f => (assign items f).map (·.newFile)) = _
    rw [ih]
    cases assign items file with
    | none => rfl
    | some o => rfl

lemma assignIter_pyStrNat (items : List String) (hne : ∀ it ∈ items, it ≠ "")
    {i : Nat} (hi : i < items.length) (k : Nat) :
    assignIter items (.content (pyStrNat i)) k =
      some (.content (pyStrNat ((i + k) % items.length))) := by
  have hlen : 0 < items.length := by omega
  induction k with
  | zero =>
    show some (IndexFile.content (pyStrNat i)) = _
    rw [Nat.add_zero, Nat.mod_eq_of_lt hi]
  | succ m ih =>
    show (assignIter items (.content (pyStrNat i)) m).bind
      (fun f => (assign items f).map (·.newFile)) = _
    rw [ih]
    have hm : (i + m) % items.length < items.length := Nat.mod_lt _ hlen
    have hr := read_index_pyStrNat (n := items.length) hm
    rw [Option.some_bind, assign_spec_at items hne _ hm hr]
    simp only [Option.map_some']
    rw [Nat.mod_add_mod, Nat.add_assoc]

lemma assignResult_pyStrNat (items : List String) (hne : ∀ it ∈ items, it ≠ "")
    {i : Nat} (hi : i < items.length) (k : Nat)
    (hk : (i + k) % items.length < items.length) :
    assignResult items (.content (pyStrNat i)) k =
      some (items.get ⟨(i + k) % items.length, hk⟩) := by
  unfold assignResult
  rw [assignIter_pyStrNat items hne hi k, Option.some_bind]
  have hr := read_index_pyStrNat (n := items.length) hk
  rw [assign_spec_at items hne _ hk hr]
  simp only [Option.map_some']

end SequentialAssigner

/-! ### load_items lemmas -/

lemma string_eq_empty_of_data {s : String} (h : s.data = []) : s = "" := by
  cases s with
  | mk data => rw [show data = [] from h]

lemma pyUpper_ne_empty {s : String} (h : s ≠ "") : pyUpper s ≠ "" := by
  intro contra
  apply h
  apply string_eq_empty_of_data
  have hd : (s.data.map Char.toUpper) = [] := congrArg String.data contra
  exact List.map_eq_nil_iff.mp hd

namespace SequentialAssigner

lemma stripUpperItems_ok_mem {l : List Json} {items : List String}
    (h : stripUpperItems l = .ok items) :
    ∀ it ∈ items, it ≠ "" ∧ ∃ s, Json.str s ∈ l ∧ it = pyUpper (pyStrip s) := by
  induction l generalizing items with
  | nil =>
    simp only [stripUpperItems] at h
    cases h
    intro it hit
    cases hit
  | cons x rest ih =>
    cases x with
    | str s =>
      simp only [stripUpperItems] at h
      cases hr : stripUpperItems rest with
      | error e => rw [hr] at h; cases h
      | ok r =>
        rw [hr] at h
        simp only [Except.map] at h
        cases h
        intro it hit
        by_cases hs : pyStrip s = ""
        · rw [if_pos hs] at hit
          obtain ⟨hne, s2, hmem, heq⟩ := ih hr it hit
          exact ⟨hne, s2, List.mem_cons_of_mem _ hmem, heq⟩
        · rw [if_neg hs] at hit
          rcases List.mem_cons.mp hit with h1 | h1
          · subst h1
            exact ⟨pyUpper_ne_empty hs, s, List.mem_cons_self _ _, rfl⟩
          · obtain ⟨hne, s2, hmem, heq⟩ := ih hr it h1
            exact ⟨hne, s2, List.mem_cons_of_mem _ hmem, heq⟩
    | null => cases h
    | bool b => cases h
    | num n => cases h
    | arr a => cases h
    | obj o => cases h

lemma load_items_ok_inv {file : ListFile} {key : String} {items : List String}
    (h : load_items file key = .ok items) :
    ∃ j l, file = .holds j ∧ pyIndexStr j key = .ok (.arr l) ∧
      stripUpperItems l = .ok items ∧ items ≠ [] := by
  cases file with
  | absent => cases h
  | notJson => cases h
  | holds j =>
    simp only [load_items] at h
    cases hc : pyContains j key with
    | error e => simp only [hc] at h; exact Except.noConfusion h
    | ok b =>
      simp only [hc] at h
      by_cases hb : ¬ (b = true)
      · rw [if_pos hb] at h; cases h
      · rw [if_neg hb] at h
        cases hx : pyIndexStr j key with
        | error e => simp only [hx] at h; exact Except.noConfusion h
        | ok v =>
          simp only [hx] at h
          cases v with
          | arr l =>
            cases hsu : stripUpperItems l with
            | error e => simp only [hsu] at h; exact Except.noConfusion h
            | ok its =>
              simp only [hsu] at h
              by_cases hni : its = []
              · rw [if_pos hni] at h; cases h
              · rw [if_neg hni] at h
                cases h
                exact ⟨j, l, rfl, hx, hsu, hni⟩
          | null => cases h
          | bool b2 => cases h
          | num n => cases h
          | str s => cases h
          | obj o => cases h

lemma load_items_ok_items {file : ListFile} {key : String} {items : List String}
    (h : load_items file key = .ok items) :
    items ≠ [] ∧ ∀ it ∈ items, it ≠ "" := by
  obtain ⟨j, l, _, _, hsu, hne⟩ := load_items_ok_inv h
  exact ⟨hne, fun it hit => (stripUpperItems_ok_mem hsu it hit).1⟩

end SequentialAssigner

/-! ### strftime / strptime round trip -/

lemma strftime_data (t : PyDateTime) : (strftimeYmdHMS t).data =
    padChars 4 t.year ++ '-' :: (padChars 2 t.month ++ '-' :: (padChars 2 t.day ++
      ' ' :: (padChars 2 t.hour ++ ':' :: (padChars 2 t.minute ++
        ':' :: padChars 2 t.second)))) := by
  simp [strftimeYmdHMS, List.append_assoc]

lemma head?_append_left {α : Type} (l1 l2 : List α) (h : l1 ≠ []) :
    (l1 ++ l2).head? = l1.head? := by
  cases l1 with
  | nil => exact absurd rfl h
  | cons x xs => rfl

lemma getLast?_append_right {α : Type} (l1 l2 : List α) (h : l2 ≠ []) :
    (l1 ++ l2).getLast? = l2.getLast? := by
  induction l1 with
  | nil => rfl
  | cons x xs ih =>
    rw [List.cons_append]
    cases hxl : xs ++ l2 with
    | nil => exact absurd (List.append_eq_nil.mp hxl).2 h
    | cons y ys =>
      rw [List.getLast?_cons_cons, ← hxl]
      exact ih

lemma getLast?_append_cons {α : Type} (l1 : List α) (c0 : α) (l2 : List α) (h : l2 ≠ []) :
    (l1 ++ c0 :: l2).getLast? = l2.getLast? := by
  rw [getLast?_append_right l1 _ (by simp)]
  exact getLast?_append_right [c0] l2 h

lemma mem_of_getLast? {α : Type} {l : List α} {a : α} (h : l.getLast? = some a) :
    a ∈ l := by
  rw [List.getLast?_eq_head?_reverse] at h
  exact List.mem_reverse.mp (List.mem_of_mem_head? (Option.mem_def.mpr h))

lemma pyStrip_strftime (t : PyDateTime) :
    pyStrip (strftimeYmdHMS t) = strftimeYmdHMS t := by
  have h : stripChars ((strftimeYmdHMS t).data) = (strftimeYmdHMS t).data := by
    rw [strftime_data]
    apply stripChars_eq_self
    · intro c hc
      rw [head?_append_left _ _ (padChars_ne_nil 4 t.year)] at hc
      exact padChars_mem_not_ws (List.mem_of_mem_head? (Option.mem_def.mpr hc))
    · intro c hc
      rw [getLast?_append_cons _ _ _ (by simp)] at hc
      rw [getLast?_append_cons _ _ _ (by simp)] at hc
      rw [getLast?_append_cons _ _ _ (by simp)] at hc
      rw [getLast?_append_cons _ _ _ (by simp)] at hc
      rw [getLast?_append_cons _ _ _ (padChars_ne_nil 2 t.second)] at hc
      exact padChars_mem_not_ws (mem_of_getLast? hc)
  exact congrArg String.mk h

lemma takeWhile_digits_append (ds rest : List Char)
    (hds : ∀ c ∈ ds, c.isDigit = true)
    (hrest : ∀ c, rest.head? = some c → c.isDigit = false) :
    (ds ++ rest).takeWhile Char.isDigit = ds := by
  induction ds with
  | nil =>
    cases rest with
    | nil => rfl
    | cons c t => simp [List.takeWhile_cons, hrest c rfl]
  | cons d ds' ih =>
    rw [List.cons_append, List.takeWhile_cons, hds d (by simp)]
    rw [ih (fun x hx => hds x (by simp [hx]))]
    simp

lemma parseField_append {w : Nat} (ds rest : List Char)
    (hds : ∀ c ∈ ds, c.isDigit = true) (hlen : ds.length = w) (hw : 0 < w)
    (hrest : ∀ c, rest.head? = some c → c.isDigit = false) :
    parseField w (ds ++ rest) = some (parseNat ds, rest) := by
  have hne : ds ≠ [] := by
    intro e
    rw [e] at hlen
    simp at hlen
    omega
  unfold parseField
  rw [takeWhile_digits_append ds rest hds hrest, ← hlen, List.take_length, if_neg hne,
    List.drop_left]

lemma parseField_pad {w : Nat} (n : Nat) (hw : 0 < w) (hn : n < 10 ^ w)
    (rest : List Char) (hrest : ∀ c, rest.head? = some c → c.isDigit = false) :
    parseField w (padChars w n ++ rest) = some (n, rest) := by
  rw [parseField_append _ _ (fun c hc => padChars_mem_digit hc)
    (padChars_length hw hn) hw hrest, parseNat_padChars]

lemma parseField_pad_nil {w : Nat} (n : Nat) (hw : 0 < w) (hn : n < 10 ^ w) :
    parseField w (padChars w n) = some (n, []) := by
  have h := parseField_pad n hw hn [] (fun c hc => by cases hc)
  rwa [List.append_nil] at h

lemma expectChar_cons (c : Char) (rest : List Char) :
    expectChar c (c :: rest) = some rest := by
  simp [expectChar]

lemma head_not_digit_cons {c0 : Char} (h : c0.isDigit = false) (rest : List Char) :
    ∀ c, (c0 :: rest).head? = some c → c.isDigit = false := by
  intro c hc
  cases hc
  exact h

lemma daysInMonth_le (y m : Nat) : daysInMonth y m ≤ 31 := by
  unfold daysInMonth
  split
  · split <;> norm_num
  · split <;> norm_num

lemma validDT_bounds {t : PyDateTime} (hv : validDT t = true) :
    t.year < 10000 ∧ t.month < 100 ∧ t.day < 100 ∧ t.hour < 100 ∧
      t.minute < 100 ∧ t.second < 100 := by
  have hdm := daysInMonth_le t.year t.month
  simp only [validDT, Bool.and_eq_true, decide_eq_true_eq] at hv
  omega

lemma strptime_strftime {t : PyDateTime} (hv : validDT t = true) :
    strptimeYmdHMS (strftimeYmdHMS t) = some (truncToSecond t) := by
  obtain ⟨hy, hmo, hd, hh, hmi, hs⟩ := validDT_bounds hv
  have e1 : parseField 4 ((strftimeYmdHMS t).data) =
      some (t.year, '-' :: (padChars 2 t.month ++ '-' :: (padChars 2 t.day ++
        ' ' :: (padChars 2 t.hour ++ ':' :: (padChars 2 t.minute ++
          ':' :: padChars 2 t.second))))) := by
    rw [strftime_data]
    exact parseField_pad t.year (by norm_num) (by omega) _
      (head_not_digit_cons (by decide) _)
  have e2 : parseField 2 (padChars 2 t.month ++ '-' :: (padChars 2 t.day ++
      ' ' :: (padChars 2 t.hour ++ ':' :: (padChars 2 t.minute ++
        ':' :: padChars 2 t.second)))) =
      some (t.month, '-' :: (padChars 2 t.day ++ ' ' :: (padChars 2 t.hour ++
        ':' :: (padChars 2 t.minute ++ ':' :: padChars 2 t.second)))) :=
    parseField_pad t.month (by norm_num) (by omega) _
      (head_not_digit_cons (by decide) _)
  have e3 : parseField 2 (padChars 2 t.day ++ ' ' :: (padChars 2 t.hour ++
      ':' :: (padChars 2 t.minute ++ ':' :: padChars 2 t.second))) =
      some (t.day, ' ' :: (padChars 2 t.hour ++ ':' :: (padChars 2 t.minute ++
        ':' :: padChars 2 t.second))) :=
    parseField_pad t.day (by norm_num) (by omega) _
      (head_not_digit_cons (by decide) _)
  have e4 : parseField 2 (padChars 2 t.hour ++ ':' :: (padChars 2 t.minute ++
      ':' :: padChars 2 t.second)) =
      some (t.hour, ':' :: (padChars 2 t.minute ++ ':' :: padChars 2 t.second)) :=
    parseField_pad t.hour (by norm_num) (by omega) _
      (head_not_digit_cons (by decide) _)
  have e5 : parseField 2 (padChars 2 t.minute ++ ':' :: padChars 2 t.second) =
      some (t.minute, ':' :: padChars 2 t.second) :=
    parseField_pad t.minute (by norm_num) (by omega) _
      (head_not_digit_cons (by decide) _)
  have e6 : parseField 2 (padChars 2 t.second) = some (t.second, []) :=
    parseField_pad_nil t.second (by norm_num) (by omega)
  have hv' : validDT ⟨t.year, t.month, t.day, t.hour, t.minute, t.second, 0, none⟩
      = true := by
    simp only [validDT, Bool.and_eq_true, decide_eq_true_eq] at hv ⊢
    omega
  simp only [strptimeYmdHMS, e1, expectChar_cons, e2, e3, e4, e5, e6, hv', if_true]
  rfl

/-! ### further assign / stripUpperItems lemmas -/

namespace SequentialAssigner

lemma assignResult_pyStrNat_get? (items : List String) (hne : ∀ it ∈ items, it ≠ "")
    {i : Nat} (hi : i < items.length) (k : Nat) :
    assignResult items (.content (pyStrNat i)) k =
      items.get? ((i + k) % items.length) := by
  have hk : (i + k) % items.length < items.length := Nat.mod_lt _ (by omega)
  rw [assignResult_pyStrNat items hne hi k hk, List.get?_eq_get hk]

lemma assignResult_of_parse (items : List String) (hne : ∀ it ∈ items, it ≠ "")
    {i : Nat} (hi : i < items.length) {s : String}
    (hs : pyInt? (pyStrip s) = some (i : Int)) (k : Nat) :
    assignResult items (.content s) k = items.get? ((i + k) % items.length) := by
  cases k with
  | zero =>
    show (assignIter items (.content s) 0).bind _ = _
    rw [show assignIter items (.content s) 0 = some (.content s) from rfl,
      Option.some_bind, assign_spec_at items hne _ hi (read_index_of_parse hs hi)]
    simp only [Option.map_some']
    rw [Nat.add_zero, Nat.mod_eq_of_lt hi, List.get?_eq_get hi]
  | succ m =>
    show (assignIter items (.content s) (m + 1)).bind _ = _
    rw [assignIter_succ_left,
      assign_spec_at items hne _ hi (read_index_of_parse hs hi), Option.some_bind]
    have h1 : (i + 1) % items.length < items.length := Nat.mod_lt _ (by omega)
    have := assignResult_pyStrNat_get? items hne h1 m
    rw [show ((assignIter items (.content (pyStrNat ((i + 1) % items.length))) m).bind
        fun f => (assign items f).map (·.sel)) =
        assignResult items (.content (pyStrNat ((i + 1) % items.length))) m from rfl]
    rw [this, Nat.mod_add_mod]
    congr 2
    omega

lemma stripUpperItems_map_str (ss : List String) :
    stripUpperItems (ss.map Json.str) =
      .ok ((ss.filter (fun s => pyStrip s ≠ "")).map (fun s => pyUpper (pyStrip s))) := by
  induction ss with
  | nil => rfl
  | cons s rest ih =>
    simp only [List.map_cons, stripUpperItems, ih, Except.map]
    by_cases hs : pyStrip s = ""
    · simp [List.filter_cons, hs]
    · simp [List.filter_cons, hs]

lemma stripUpperItems_not_str {l : List Json} {x : Json} (hx : x ∈ l)
    (hns : ∀ s, x ≠ .str s) :
    stripUpperItems l = .error .attributeError := by
  induction l with
  | nil => cases hx
  | cons y rest ih =>
    rcases List.mem_cons.mp hx with rfl | hmem
    · cases x with
      | str s => exact absurd rfl (hns s)
      | null => rfl
      | bool b => rfl
      | num n => rfl
      | arr a => rfl
      | obj o => rfl
    · cases y with
      | str s => simp only [stripUpperItems, ih hmem, Except.map]
      | null => rfl
      | bool b => rfl
      | num n => rfl
      | arr a => rfl
      | obj o => rfl

end SequentialAssigner

/-! ### case lemmas for _load_items and the lobby save -/

namespace SequentialAssigner

lemma load_items_key_absent {kvs : List (String × Json)} {key : String}
    (h : ∀ kv ∈ kvs, ¬ kv.1 = key) :
    load_items (.holds (.obj kvs)) key = .error .valueError := by
  have hany : kvs.any (fun kv => kv.1 = key) = false :=
    List.any_eq_false.mpr (by intro x hx; simpa using h x hx)
  simp [load_items, pyContains, hany]

lemma load_items_found {kvs : List (String × Json)} {key : String}
    {kv : String × Json} (hf : kvs.find? (fun kv2 => kv2.1 = key) = some kv) :
    load_items (.holds (.obj kvs)) key =
      (match kv.2 with
       | .arr l =>
         match stripUpperItems l with
         | .error e => .error e
         | .ok items => if items = [] then .error .valueError else .ok items
       | _ => .error .valueError) := by
  obtain ⟨k1, v⟩ := kv
  have hmem := List.mem_of_find?_eq_some hf
  have hp := List.find?_some hf
  have hany : kvs.any (fun kv2 => kv2.1 = key) = true :=
    List.any_eq_true.mpr ⟨(k1, v), hmem, by simpa using hp⟩
  simp only [load_items, pyContains, pyIndexStr, hany, hf]
  rw [if_neg (by simp)]
  cases v <;> rfl

lemma load_items_not_obj (j : Json) (key : String) (h : ∀ kvs, j ≠ .obj kvs) :
    ∃ e, load_items (.holds j) key = .error e := by
  cases j with
  | obj kvs => exact absurd rfl (h kvs)
  | null => exact ⟨.typeError, rfl⟩
  | bool b => exact ⟨.typeError, rfl⟩
  | num n => exact ⟨.typeError, rfl⟩
  | arr l =>
    simp only [load_items, pyContains]
    by_cases hb : l.any (fun x => match x with | .str s => s = key | _ => false) = true
    · rw [hb, if_neg (by simp)]
      exact ⟨.typeError, rfl⟩
    · rw [Bool.eq_false_iff.mpr hb, if_pos (by simp)]
      exact ⟨.valueError, rfl⟩
  | str s =>
    simp only [load_items, pyContains]
    by_cases hb : decide (key.data <:+: s.data) = true
    · rw [hb, if_neg (by simp)]
      exact ⟨.typeError, rfl⟩
    · rw [Bool.eq_false_iff.mpr hb, if_pos (by simp)]
      exact ⟨.valueError, rfl⟩

lemma save_stored_of_any (ps : PlayerState) (l : List PlayerRec)
    (h : l.any (fun p => p.code_name = ps.code_name) = true) :
    save_player_to_lobby_file ps (.stored l) = .stored l := by
  simp [save_player_to_lobby_file, h]

lemma save_result_any (ps : PlayerState) (file : PlayersFile) :
    ∃ l, save_player_to_lobby_file ps file = .stored l ∧
      l.any (fun p => p.code_name = ps.code_name) = true := by
  have key : ∀ P : List PlayerRec,
      (P ++ [asdict ps]).any (fun p => p.code_name = ps.code_name) = true := by
    intro P
    rw [List.any_append]
    simp [asdict]
  cases file with
  | absent =>
    exact ⟨[asdict ps], by simp [save_player_to_lobby_file], key []⟩
  | invalid =>
    exact ⟨[asdict ps], by simp [save_player_to_lobby_file], key []⟩
  | stored P =>
    by_cases h : P.any (fun p => p.code_name = ps.code_name) = true
    · exact ⟨P, save_stored_of_any ps P h, h⟩
    · refine ⟨P ++ [asdict ps], ?_, key P⟩
      simp [save_player_to_lobby_file, Bool.eq_false_iff.mpr h]

end SequentialAssigner

/-! ### Claims -/

/-- C1: for a `SequentialAssigner` whose items were produced by
`_load_items` and whose persisted index file holds an integer `i` with
`0 ≤ i < n`, `assign()` returns `items[i]` and persists `(i+1) % n`; the
`k`-th of a run of consecutive calls returns `items[(i+k) % n]`; the first
`n` calls return the items of the list each exactly once, in list order
starting from the cursor (the rotation of the list by `i`); and the call
after those `n` calls wraps around to `items[i]` again. -/
theorem claim_C1 (items : List String) (i : Nat) (s : String)
    (hitems : ∃ file key, SequentialAssigner.load_items file key = .ok items)
    (hs : pyInt? (pyStrip s) = some (i : Int)) (hi : i < items.length) :
    ((SequentialAssigner.assign items (.content s)).map (·.sel) = items.get? i ∧
     (SequentialAssigner.assign items (.content s)).map (·.newFile) =
       some (.content (pyStrNat ((i + 1) % items.length)))) ∧
    (∀ k, SequentialAssigner.assignResult items (.content s) k =
       items.get? ((i + k) % items.length)) ∧
    ((List.range items.length).map
       (fun k => SequentialAssigner.assignResult items (.content s) k) =
     (items.rotate i).map some) ∧
    SequentialAssigner.assignResult items (.content s) items.length =
      items.get? i := by
  obtain ⟨file0, key0, hload⟩ := hitems
  have hne := (SequentialAssigner.load_items_ok_items hload).2
  have hr := SequentialAssigner.read_index_of_parse hs hi
  have hassign := SequentialAssigner.assign_spec_at items hne (.content s) hi hr
  refine ⟨⟨?_, ?_⟩, ?_, ?_, ?_⟩
  · rw [hassign, Option.map_some']
    rw [List.get?_eq_get hi]
  · rw [hassign, Option.map_some']
  · exact fun k => SequentialAssigner.assignResult_of_parse items hne hi hs k
  · apply List.ext_getElem?
    intro m
    by_cases hm : m < items.length
    · rw [List.getElem?_map, List.getElem?_range hm, Option.map_some',
        List.getElem?_map, List.getElem?_rotate hm,
        SequentialAssigner.assignResult_of_parse items hne hi hs m]
      have hx : (m + i) % items.length < items.length := Nat.mod_lt _ (by omega)
      rw [List.get?_eq_getElem?, Nat.add_comm i m, List.getElem?_eq_getElem hx,
        Option.map_some']
    · have h1 : items.length ≤ m := by omega
      rw [List.getElem?_map, List.getElem?_map,
        List.getElem?_eq_none (by simpa using h1),
        List.getElem?_eq_none (by rw [List.length_rotate]; exact h1)]
      rfl
  · rw [SequentialAssigner.assignResult_of_parse items hne hi hs items.length,
      Nat.add_mod_right, Nat.mod_eq_of_lt hi]

/-- Witness for C1 at a concrete assigner: items `["A","B","C"]` loaded from
a JSON list file, cursor `1`; the fourth consecutive call wraps back to
`items[1]`. -/
theorem claim_C1_witness :
    SequentialAssigner.assignResult ["A", "B", "C"]
      (.content "1") (["A", "B", "C"] : List String).length = some "B" := by
  have h := claim_C1 ["A", "B", "C"] 1 "1"
    ⟨.holds (.obj [("k", .arr [.str "a", .str "b", .str "c"])]), "k", by decide⟩
    (by decide) (by decide)
  rw [h.2.2.2]
  decide

/-- C3: `_read_index` falls back to `0` when the index file is missing, when
reading raises `IOError`, when the contents do not parse as an int, and when
the parsed int is outside `[0, n)`; only a parsed int inside the range is
returned as the index. -/
theorem claim_C3 (n : Nat) :
    SequentialAssigner.read_index n .absent = 0 ∧
    SequentialAssigner.read_index n .readError = 0 ∧
    (∀ s, pyInt? (pyStrip s) = none →
      SequentialAssigner.read_index n (.content s) = 0) ∧
    (∀ s i, pyInt? (pyStrip s) = some i → ¬ (0 ≤ i ∧ i < (n : Int)) →
      SequentialAssigner.read_index n (.content s) = 0) ∧
    (∀ s i, pyInt? (pyStrip s) = some i → 0 ≤ i → i < (n : Int) →
      SequentialAssigner.read_index n (.content s) = i.toNat) := by
  refine ⟨rfl, rfl, ?_, ?_, ?_⟩
  · intro s h
    simp [SequentialAssigner.read_index, h]
  · intro s i h hrange
    simp only [SequentialAssigner.read_index, h]
    rw [if_neg hrange]
  · intro s i h h0 hn
    simp only [SequentialAssigner.read_index, h]
    rw [if_pos ⟨h0, hn⟩]

/-- Witness for C3: a non-numeric file, an out-of-range index and a valid
index over a 3-item list. -/
theorem claim_C3_witness :
    SequentialAssigner.read_index 3 (.content "junk") = 0 ∧
    SequentialAssigner.read_index 3 (.content "7") = 0 ∧
    SequentialAssigner.read_index 3 (.content " 2 ") = 2 := by
  refine ⟨(claim_C3 3).2.2.1 "junk" (by decide),
    (claim_C3 3).2.2.2.1 "7" 7 (by decide) (by decide), ?_⟩
  exact (claim_C3 3).2.2.2.2 " 2 " 2 (by decide) (by decide) (by decide)

/-- C5: for a non-empty items list, `_read_index` always returns an index
inside `[0, n)`, and the index `assign()` hands to `_write_index` is again
inside `[0, n)`: the persisted cursor stays within list bounds. -/
theorem claim_C5 (items : List String) (hne : items ≠ [])
    (file : SequentialAssigner.IndexFile) :
    SequentialAssigner.read_index items.length file < items.length ∧
    ∀ o, SequentialAssigner.assign items file = some o →
      ∃ m, o.newFile = .content (pyStrNat m) ∧ m < items.length := by
  have hpos : 0 < items.length := List.length_pos.mpr hne
  refine ⟨SequentialAssigner.read_index_lt hpos file, ?_⟩
  intro o ho
  exact ⟨_, SequentialAssigner.assign_some_newFile ho, Nat.mod_lt _ hpos⟩

/-- Witness for C5 on a 2-item list with an out-of-range index file. -/
theorem claim_C5_witness :
    SequentialAssigner.read_index (["A", "B"] : List String).length
      (.content "5") < (["A", "B"] : List String).length :=
  (claim_C5 ["A", "B"] (by decide) (.content "5")).1

/-- C10: every item of a successfully constructed `SequentialAssigner` is
the stripped-and-uppercased form of some string entry of the configured
JSON list and is non-empty; hence `assign()` always finds its index (no
`IndexError`), the selected item is a member of `self.items`, and the
invalid-item fallback branch is never taken. -/
theorem claim_C10 (file : SequentialAssigner.ListFile) (key : String)
    (items : List String)
    (h : SequentialAssigner.load_items file key = .ok items) :
    (∀ it ∈ items, it ≠ "" ∧ ∃ j l s, file = .holds j ∧
        SequentialAssigner.pyIndexStr j key = .ok (.arr l) ∧ Json.str s ∈ l ∧
        it = pyUpper (pyStrip s)) ∧
    (∀ f2 : SequentialAssigner.IndexFile,
      ∃ o, SequentialAssigner.assign items f2 = some o ∧
        o.sel ∈ items ∧ o.usedFallback = false) := by
  obtain ⟨j, l, hfile, hidx, hsu, hnil⟩ := SequentialAssigner.load_items_ok_inv h
  have hmem := SequentialAssigner.stripUpperItems_ok_mem hsu
  have hne : ∀ it ∈ items, it ≠ "" := fun it hit => (hmem it hit).1
  constructor
  · intro it hit
    obtain ⟨h1, s, hsl, hsu2⟩ := hmem it hit
    exact ⟨h1, j, l, s, hfile, hidx, hsl, hsu2⟩
  · intro f2
    have hpos : 0 < items.length := List.length_pos.mpr hnil
    have hlt := SequentialAssigner.read_index_lt hpos f2
    refine ⟨_, SequentialAssigner.assign_spec items hne f2 hlt, ?_, rfl⟩
    exact List.get_mem items _ hlt

/-- Witness for C10: the one-item assigner built from `{"k": [" a "]}`. -/
theorem claim_C10_witness :
    ∃ o, SequentialAssigner.assign ["A"] .absent = some o ∧
      o.sel ∈ (["A"] : List String) ∧ o.usedFallback = false :=
  (claim_C10 (.holds (.obj [("k", .arr [.str " a "])])) "k" ["A"]
    (by decide)).2 .absent

/-- C4 counterexample: the file `{"CODENAMES": [1]}` exists, is valid JSON,
has the key bound to a list, so by the claim `_load_items` should either
raise the empty-list `ValueError` or return; instead `item.strip()` on the
integer raises `AttributeError`, which none of the claim's cases allow. -/
theorem claim_C4_counterexample :
    SequentialAssigner.load_items
      (.holds (.obj [("CODENAMES", .arr [.num 1])])) "CODENAMES" =
      .error .attributeError := by
  decide

/-- C4 (amended): `_load_items` raises `FileNotFoundError` on a missing
file, `IOError` on invalid JSON, `ValueError` when the parsed value is a
dict without the key or with the key bound to a non-list, `AttributeError`
when the key's list contains a non-string entry, `ValueError` when the
string entries leave nothing non-blank after stripping, and returns the
stripped-uppercased non-blank items otherwise; a non-dict top-level value
always raises (a `TypeError` from the membership test or the string
indexing, or the missing-key `ValueError`). -/
theorem claim_C4 (key : String) :
    (SequentialAssigner.load_items .absent key = .error .fileNotFound) ∧
    (SequentialAssigner.load_items .notJson key = .error .ioError) ∧
    (∀ kvs : List (String × Json), (∀ kv ∈ kvs, ¬ kv.1 = key) →
      SequentialAssigner.load_items (.holds (.obj kvs)) key =
        .error .valueError) ∧
    (∀ (kvs : List (String × Json)) (kv : String × Json),
      kvs.find? (fun kv2 => kv2.1 = key) = some kv →
      (∀ l, kv.2 ≠ .arr l) →
      SequentialAssigner.load_items (.holds (.obj kvs)) key =
        .error .valueError) ∧
    (∀ (kvs : List (String × Json)) (kv : String × Json) (l : List Json)
      (x : Json),
      kvs.find? (fun kv2 => kv2.1 = key) = some kv →
      kv.2 = .arr l → x ∈ l → (∀ s, x ≠ .str s) →
      SequentialAssigner.load_items (.holds (.obj kvs)) key =
        .error .attributeError) ∧
    (∀ (kvs : List (String × Json)) (kv : String × Json) (ss : List String),
      kvs.find? (fun kv2 => kv2.1 = key) = some kv →
      kv.2 = .arr (ss.map Json.str) →
      ((ss.filter (fun s => pyStrip s ≠ "") = [] →
        SequentialAssigner.load_items (.holds (.obj kvs)) key =
          .error .valueError) ∧
       (ss.filter (fun s => pyStrip s ≠ "") ≠ [] →
        SequentialAssigner.load_items (.holds (.obj kvs)) key =
          .ok ((ss.filter (fun s => pyStrip s ≠ "")).map
            (fun s => pyUpper (pyStrip s)))))) ∧
    (∀ j : Json, (∀ kvs, j ≠ .obj kvs) →
      ∃ e, SequentialAssigner.load_items (.holds j) key = .error e) := by
  refine ⟨rfl, rfl, ?_, ?_, ?_, ?_, ?_⟩
  · exact fun kvs h => SequentialAssigner.load_items_key_absent h
  · intro kvs kv hf hnl
    rw [SequentialAssigner.load_items_found hf]
    cases hv : kv.2 with
    | arr l => exact absurd hv (hnl l)
    | null => rfl
    | bool b => rfl
    | num n => rfl
    | str s => rfl
    | obj o => rfl
  · intro kvs kv l x hf harr hx hns
    rw [SequentialAssigner.load_items_found hf, harr]
    simp only [SequentialAssigner.stripUpperItems_not_str hx hns]
  · intro kvs kv ss hf harr
    rw [SequentialAssigner.load_items_found hf, harr]
    simp only [SequentialAssigner.stripUpperItems_map_str ss]
    constructor
    · intro hempty
      rw [hempty]
      rfl
    · intro hne
      rw [if_neg (by simpa [List.map_eq_nil_iff] using hne)]
  · exact fun j h => SequentialAssigner.load_items_not_obj j key h

/-- Witness for C4: the key bound to a non-list raises `ValueError`; a
proper list of strings is stripped, uppercased and returned. -/
theorem claim_C4_witness :
    SequentialAssigner.load_items (.holds (.obj [("k", .num 2)])) "k" =
      .error .valueError ∧
    SequentialAssigner.load_items
      (.holds (.obj [("k", .arr [.str " a", .str " "])])) "k" = .ok ["A"] := by
  constructor
  · exact (claim_C4 "k").2.2.2.1 [("k", .num 2)] ("k", .num 2) rfl
      (fun l hl => Json.noConfusion hl)
  · have h := ((claim_C4 "k").2.2.2.2.2.1 [("k", .arr [.str " a", .str " "])]
      ("k", .arr [.str " a", .str " "]) [" a", " "] rfl rfl).2 (by decide)
    rw [h]
    decide

/-- C2: `synchronize_start_time` makes the caller the timekeeper and writes
the formatted current time when the start-time file does not exist; when it
exists, it parses the stripped file contents with the same format into
`ps.starttime`; composing the two runs, a later player obtains exactly the
second-truncated start time the timekeeper wrote. -/
theorem claim_C2 :
    (∀ playersFile now gs ps players,
      load_players_from_lobby playersFile = .ok players →
      synchronize_start_time none playersFile now gs ps =
        .ok ⟨some (strftimeYmdHMS { now with tz := none }),
              { gs with players := players },
              { ps with timekeeper := true,
                        starttime := some { now with tz := none } }⟩) ∧
    (∀ s playersFile now gs ps t,
      strptimeYmdHMS (pyStrip s) = some t →
      synchronize_start_time (some s) playersFile now gs ps =
        .ok ⟨some s, gs, { ps with starttime := some { t with tz := none } }⟩) ∧
    (∀ now pf1 gs1 ps1 r1 pf2 now2 gs2 ps2 r2,
      validDT now = true →
      synchronize_start_time none pf1 now gs1 ps1 = .ok r1 →
      synchronize_start_time r1.startFile pf2 now2 gs2 ps2 = .ok r2 →
      r1.ps.timekeeper = true ∧
      r2.ps.starttime = some (truncToSecond now)) := by
  have hbranch1 : ∀ playersFile now gs ps players,
      load_players_from_lobby playersFile = .ok players →
      synchronize_start_time none playersFile now gs ps =
        .ok ⟨some (strftimeYmdHMS { now with tz := none }),
              { gs with players := players },
              { ps with timekeeper := true,
                        starttime := some { now with tz := none } }⟩ := by
    intro playersFile now gs ps players h
    simp [synchronize_start_time, h]
  have hbranch2 : ∀ s playersFile now gs ps t,
      strptimeYmdHMS (pyStrip s) = some t →
      synchronize_start_time (some s) playersFile now gs ps =
        .ok ⟨some s, gs, { ps with starttime := some { t with tz := none } }⟩ := by
    intro s playersFile now gs ps t h
    simp [synchronize_start_time, h]
  refine ⟨hbranch1, hbranch2, ?_⟩
  intro now pf1 gs1 ps1 r1 pf2 now2 gs2 ps2 r2 hv h1 h2
  cases hload : load_players_from_lobby pf1 with
  | error e => simp [synchronize_start_time, hload] at h1
  | ok players =>
    rw [hbranch1 pf1 now gs1 ps1 players hload] at h1
    cases h1
    have hv2 : validDT { now with tz := none } = true := hv
    have hparse : strptimeYmdHMS
        (pyStrip (strftimeYmdHMS { now with tz := none })) =
        some (truncToSecond { now with tz := none }) := by
      rw [pyStrip_strftime]
      exact strptime_strftime hv2
    rw [hbranch2 _ pf2 now2 gs2 ps2 _ hparse] at h2
    cases h2
    exact ⟨rfl, rfl⟩

/-- Witness for C2: a timekeeper run at `2024-01-02 03:04:05.123456`
followed by a second player's run on the file the timekeeper wrote; the
second player reads back the second-truncated time. -/
theorem claim_C2_witness :
    (SyncResult.mk (some "2024-01-02 03:04:05") ⟨"st", "pp", []⟩
        ⟨"X", 1, true, some ⟨2024, 1, 2, 3, 4, 5, 123456, none⟩⟩).ps.timekeeper
      = true ∧
    (SyncResult.mk (some "2024-01-02 03:04:05") ⟨"st2", "pp2", []⟩
        ⟨"Y", 2, false, some ⟨2024, 1, 2, 3, 4, 5, 0, none⟩⟩).ps.starttime =
      some (truncToSecond ⟨2024, 1, 2, 3, 4, 5, 123456, none⟩) :=
  claim_C2.2.2 ⟨2024, 1, 2, 3, 4, 5, 123456, none⟩ .absent ⟨"st", "pp", []⟩
    ⟨"X", 1, false, none⟩ _ .absent ⟨2025, 6, 7, 8, 9, 10, 11, none⟩
    ⟨"st2", "pp2", []⟩ ⟨"Y", 2, false, some ⟨2024, 1, 2, 3, 4, 5, 0, none⟩⟩ _
    (by decide) (by decide) (by decide)

/-- C6 counterexample: no execution of `synchronize_start_time` against a
stable filesystem performs a wait iteration.  The polling loop sits in the
branch taken when the start-time file already exists, nothing in this
program removes that file, and the timekeeper branch has no loop at all, so
the guard is false on entry and the loop body never runs. -/
theorem claim_C6_counterexample : ¬ existsWaitIteration := by
  rintro ⟨startFile, obs, k, hstable, hiters, hk⟩
  cases startFile with
  | none =>
    have h : k = 0 := hiters
    omega
  | some s =>
    obtain ⟨hk_true, hbefore⟩ := hiters
    have h0 : obs 0 = true := by rw [hstable 0]; rfl
    rw [hbefore 0 (by omega)] at h0
    cases h0

/-- C6 (amended): the code does contain a `sleep(1)` polling loop guarding
the read, but it is dead: against a stable filesystem every execution of
`synchronize_start_time` performs exactly zero wait iterations, because the
waiting branch is only entered when the file already exists. -/
theorem claim_C6 (startFile : Option String) (obs : Nat → Bool) (k : Nat)
    (hstable : stableObs startFile obs)
    (hiters : sync_wait_iters startFile obs k) : k = 0 := by
  cases startFile with
  | none => exact hiters
  | some s =>
    obtain ⟨hk_true, hbefore⟩ := hiters
    by_contra hne
    have h0 : obs 0 = true := by rw [hstable 0]; rfl
    rw [hbefore 0 (by omega)] at h0
    cases h0

/-- Witness for C6: a waiting player observing an existing start-time file
exits the loop after zero sleeps. -/
theorem claim_C6_witness :
    stableObs (some "2024-01-02 03:04:05") (fun _ => true) ∧
    sync_wait_iters (some "2024-01-02 03:04:05") (fun _ => true) 0 ∧ 0 = 0 := by
  have h1 : stableObs (some "2024-01-02 03:04:05") (fun _ => true) :=
    fun n => rfl
  have h2 : sync_wait_iters (some "2024-01-02 03:04:05") (fun _ => true) 0 :=
    ⟨rfl, fun j hj => absurd hj (by omega)⟩
  exact ⟨h1, h2, claim_C6 (some "2024-01-02 03:04:05") (fun _ => true) 0 h1 h2⟩

/-- C7: `load_players_from_lobby` returns the empty list without opening the
file when it does not exist; when the file holds a JSON list of player
records it returns one `PlayerState` per record, in file order. -/
theorem claim_C7 :
    (load_players_from_lobby .absent = .ok [] ∧
      lobby_read_performed .absent = false) ∧
    (∀ l : List PlayerRec,
      load_players_from_lobby (.stored l) = .ok (l.map playerOfRec) ∧
      lobby_read_performed (.stored l) = true ∧
      (l.map playerOfRec).length = l.length ∧
      ∀ k : Nat, (l.map playerOfRec)[k]? = l[k]?.map playerOfRec) := by
  refine ⟨⟨rfl, rfl⟩, ?_⟩
  intro l
  refine ⟨rfl, rfl, by simp, ?_⟩
  intro k
  exact List.getElem?_map playerOfRec l k

/-- C8: saving the same player twice leaves `players.json` exactly as after
one save: the second call finds a record with the same `code_name` and
rewrites the unchanged list. -/
theorem claim_C8 (ps : PlayerState) (file : PlayersFile) :
    save_player_to_lobby_file ps (save_player_to_lobby_file ps file) =
      save_player_to_lobby_file ps file := by
  obtain ⟨l, h1, h2⟩ := SequentialAssigner.save_result_any ps file
  rw [h1, SequentialAssigner.save_stored_of_any ps l h2]

/-- C9: for a log whose non-blank stripped lines form `L` and any counter
`0 ≤ last_line ≤ |L|`, `read_new_messages` returns
`(L, L[last_line:], |L|)`: the new-message list is the suffix of `L` at the
old counter and the returned counter equals the total non-blank line
count. -/
theorem claim_C9 (content : String) (last_line : Int)
    (h0 : 0 ≤ last_line)
    (hle : last_line ≤ ((full_chat_of content).length : Int)) :
    read_new_messages content last_line =
      (full_chat_of content,
       (full_chat_of content).drop last_line.toNat,
       ((full_chat_of content).length : Int)) := by
  simp only [read_new_messages, pySliceFrom]
  rw [if_neg (by omega)]
  have h3 : last_line +
      (((full_chat_of content).drop last_line.toNat).length : Int) =
      ((full_chat_of content).length : Int) := by
    rw [List.length_drop]
    omega
  rw [h3]

/-- Witness for C9 on the log `"a\nb\nc"` with counter 1. -/
theorem claim_C9_witness :
    read_new_messages "a\nb\nc" 1 =
      (full_chat_of "a\nb\nc",
       (full_chat_of "a\nb\nc").drop (1 : Int).toNat,
       ((full_chat_of "a\nb\nc").length : Int)) :=
  claim_C9 "a\nb\nc" 1 (by decide) (by decide)

/-- Witness for C7: a one-record lobby file yields that player. -/
theorem claim_C7_witness :
    load_players_from_lobby (.stored [⟨"X", 1, false, none⟩]) =
      .ok (([(⟨"X", 1, false, none⟩ : PlayerRec)]).map playerOfRec) :=
  (claim_C7.2 [⟨"X", 1, false, none⟩]).1

/-- Witness for C8: a double save into an empty lobby directory. -/
theorem claim_C8_witness :
    save_player_to_lobby_file ⟨"X", 1, false, none⟩
        (save_player_to_lobby_file ⟨"X", 1, false, none⟩ .absent) =
      save_player_to_lobby_file ⟨"X", 1, false, none⟩ .absent :=
  claim_C8 ⟨"X", 1, false, none⟩ .absent
